import Mathlib

/-!
Verification of the MaintainX label generator (two variants:
`new_qrcode.py`, the QR-label pipeline, and `app.py`, the barcode-label
pipeline) against its natural-language specification.

The Python source is shallowly embedded: strings are Lean `String`s
(character predicates such as `isdigit`/`isalnum` are modelled on the
ASCII range), real-valued layout dimensions are `ℚ`, and the opaque
text-measurement performed by the PDF backend (`Paragraph.wrapOn`) is
abstracted as a function `measure : ℕ → ℚ` from font size to wrapped
height.
-/

namespace MXLabel

/-! ## Identifier extraction (`new_qrcode.py` lines 50-54, `app.py` lines 48-52)

`if not input_url or "/" not in input_url: raise ValueError(...)`
`resource_id = input_url.rstrip("/").split("/")[-1]`
`if not resource_id.isdigit(): raise ValueError(...)` -/

/-- Python `s.rstrip("/")`: drop trailing slash characters. -/
def rstripSlashes (s : String) : String :=
  ⟨(s.data.reverse.dropWhile (fun c => c = '/')).reverse⟩

/-- Python `s.isdigit()` restricted to ASCII: non-empty and all decimal digits. -/
def pyIsdigit (s : String) : Bool :=
  !s.isEmpty && s.data.all Char.isDigit

/-- The candidate identifier: last segment of the slash-split of the
slash-rstripped URL (`input_url.rstrip("/").split("/")[-1]`). -/
def lastSegment (s : String) : String :=
  (((rstripSlashes s).splitOn "/").getLast?).getD ""

/-- The resource-id extraction step shared by both variants. -/
def extractResourceId (url : String) : Except String String :=
  if url = "" ∨ url.data.contains '/' = false then
    Except.error "Invalid URL format."
  else
    let rid := lastSegment url
    if pyIsdigit rid then Except.ok rid
    else Except.error "Could not extract numeric ID."

/-- The pipeline performs its single upstream request only after a
successful extraction; an extraction failure aborts before any fetch.
`fetch` stands for the network call (`requests.get`). -/
def runFetchStage (url : String) (fetch : String → ℕ) : Option ℕ :=
  match extractResourceId url with
  | Except.error _ => none
  | Except.ok rid => some (fetch rid)

/-! ## Display-name and code-value normalization

`new_qrcode.py` line 72: `name = payload.get("name", "N/A").strip() or "N/A"`
`app.py` line 80:        `name = part.get("name", "N/A").strip()`
`new_qrcode.py` line 73: `qr_data = payload.get("barcode", "") or resource_id`
`app.py` lines 81-88:    `barcode_value = part.get("barcode", "")`;
                         `if not barcode_value: barcode_value = part_id` -/

/-- Python `s.strip()` on the ASCII range: drop leading and trailing whitespace. -/
def pyStrip (s : String) : String :=
  ⟨((s.data.dropWhile Char.isWhitespace).reverse.dropWhile Char.isWhitespace).reverse⟩

/-- Display-name normalization of the QR variant (`new_qrcode.py`). -/
def normalizeNameQR (name : Option String) : String :=
  let s := pyStrip (name.getD "N/A")
  if s = "" then "N/A" else s

/-- Display-name normalization of the barcode variant (`app.py`): no
`or "N/A"` guard after `.strip()`. -/
def normalizeNameBC (name : Option String) : String :=
  pyStrip (name.getD "N/A")

/-- Code-value selection, identical in both variants: the upstream
`barcode` field when present and truthy, else the numeric id.
`none` models an absent (or JSON-null) field. -/
def codeValue (barcode : Option String) (rid : String) : String :=
  let b := barcode.getD ""
  if b = "" then rid else b

/-! ## Greedy font-fitting search (`new_qrcode.py` lines 109-131)

`max_fs, min_fs = 18, 6`; `fitted_fs = min_fs`;
`for fs in range(max_fs, min_fs - 1, -1): ... if h <= text_height:
fitted_fs = fs; break`.  The wrapped-height measurement
(`p.wrapOn(c, text_width, text_height)` at font size `fs`, bold, leading
`1.2*fs`) is abstracted as `measure fs`. -/

def min_fs : ℕ := 6
def max_fs : ℕ := 18

/-- The downward scan: `fitSearch measure tH (k+1)` examines font size
`min_fs + k` and recurses; `fitSearch measure tH 0` is the loop falling
through with `fitted_fs` still at its initialization `min_fs`. -/
def fitSearch (measure : ℕ → ℚ) (tH : ℚ) : ℕ → ℕ
  | 0 => min_fs
  | k + 1 => if measure (min_fs + k) ≤ tH then min_fs + k else fitSearch measure tH k

/-- The fitted font size: scan `max_fs, max_fs - 1, ..., min_fs`. -/
def fittedFontSize (measure : ℕ → ℚ) (tH : ℚ) : ℕ :=
  fitSearch measure tH (max_fs + 1 - min_fs)

/-! ## Vertical centering (`new_qrcode.py` lines 145-157)

`vertical_space = max(text_height - paragraph_height, 0)`;
`pad = vertical_space / 2`; the frame is built with
`bottomPadding=pad, topPadding=pad`. -/

def verticalSpace (textHeight paragraphHeight : ℚ) : ℚ :=
  max (textHeight - paragraphHeight) 0

def framePad (textHeight paragraphHeight : ℚ) : ℚ :=
  verticalSpace textHeight paragraphHeight / 2

def topPadding (textHeight paragraphHeight : ℚ) : ℚ := framePad textHeight paragraphHeight

def bottomPadding (textHeight paragraphHeight : ℚ) : ℚ := framePad textHeight paragraphHeight

/-! ## Barcode-variant discrete font choice (`app.py` lines 129-137)

`max_len_large_font = 25`; `max_len_medium_font = 40`;
`if len(name) <= 25: font_size = 14 elif len(name) <= 40: font_size = 12
else: font_size = 10`. -/

def max_len_large_font : ℕ := 25
def max_len_medium_font : ℕ := 40

def barcodeFontSize (nameLen : ℕ) : ℕ :=
  if nameLen ≤ max_len_large_font then 14
  else if nameLen ≤ max_len_medium_font then 12
  else 10

/-- The scheme claimed by the spec: exactly two font sizes split by a
single length threshold. -/
def twoTierScheme : Prop :=
  ∃ threshold big small : ℕ, small < big ∧
    ∀ n : ℕ, barcodeFontSize n = if n ≤ threshold then big else small

/-! ## Filename sanitization and composition
(`new_qrcode.py` lines 175-177, `app.py` lines 178-179)

`safe = "".join(ch for ch in name if ch.isalnum() or ch in (" ", "_", "-"))`
`safe = safe.rstrip().replace(" ", "_")`
`pdf_filename = f"{filename_prefix}_{resource_id}_{safe}_fs{fitted_fs}.pdf"` -/

/-- The character filter of the sanitizer (ASCII model of `ch.isalnum()`). -/
def keepChar (c : Char) : Bool :=
  c.isAlphanum || c = ' ' || c = '_' || c = '-'

/-- Python `s.rstrip()`: drop trailing whitespace. -/
def rstripWs (l : List Char) : List Char :=
  (l.reverse.dropWhile Char.isWhitespace).reverse

/-- Python `s.replace(" ", "_")` on a character list. -/
def replaceSpace (l : List Char) : List Char :=
  l.map (fun c => if c = ' ' then '_' else c)

/-- Full sanitization on a character list: filter, then rstrip, then
replace spaces. -/
def sanitizeL (l : List Char) : List Char :=
  replaceSpace (rstripWs (l.filter keepChar))

/-- Full sanitization: filter, then rstrip, then replace spaces. -/
def sanitize (s : String) : String :=
  ⟨sanitizeL s.data⟩

/-- Filename composition of the QR variant:
`f"{filename_prefix}_{resource_id}_{safe}_fs{fitted_fs}.pdf"`. -/
def buildFilename (kindTag rid name : String) (fs : ℕ) : String :=
  kindTag ++ "_" ++ rid ++ "_" ++ sanitize name ++ "_fs" ++ toString fs ++ ".pdf"

/-! ## Base64 maybe-decode heuristic (`app.py` lines 91-100)

`if len(barcode_value) % 4 == 0 and all(c in alphabet for c in
barcode_value): decoded_barcode = base64.b64decode(barcode_value).decode("utf-8")
else: decoded_barcode = barcode_value`, with decoding errors
(`binascii.Error`, `UnicodeDecodeError`) falling back to the raw value. -/

/-- The charset literal of the heuristic (also the standard Base64 alphabet). -/
def b64Charset : String :=
  "ABCDEFGHIJKLMNOPQRSTUVWXYZabcdefghijklmnopqrstuvwxyz0123456789+/"

def isB64Char (c : Char) : Bool := b64Charset.data.contains c

/-- Value (six bits) of an alphabet character (its index in the alphabet). -/
def b64Val (c : Char) : ℕ := b64Charset.data.indexOf c

/-- `base64.b64decode` on an unpadded input whose length is a multiple
of 4: each 4-character group yields 3 bytes. -/
def b64DecodeGroups : List Char → List ℕ
  | c0 :: c1 :: c2 :: c3 :: rest =>
      let v0 := b64Val c0
      let v1 := b64Val c1
      let v2 := b64Val c2
      let v3 := b64Val c3
      (v0 * 4 + v1 / 16) :: ((v1 % 16) * 16 + v2 / 4) :: ((v2 % 4) * 64 + v3) ::
        b64DecodeGroups rest
  | _ => []

/-- Strict UTF-8 decoding of a byte list into code points, as performed
by the Python call `bytes.decode("utf-8")`: rejects truncated sequences, bad
continuation bytes, overlong encodings, surrogates, and code points
above `0x10FFFF`.  `need` counts outstanding continuation bytes, `acc`
the bits accumulated so far, `lo` the smallest code point the current
sequence is allowed to produce, `out` the code points so far (reversed). -/
def utf8Aux : List ℕ → ℕ → ℕ → ℕ → List ℕ → Option (List ℕ)
  | [], 0, _, _, out => some out.reverse
  | [], _ + 1, _, _, _ => none
  | b :: rest, 0, _, _, out =>
      if b < 0x80 then utf8Aux rest 0 0 0 (b :: out)
      else if b < 0xC2 then none
      else if b < 0xE0 then utf8Aux rest 1 (b - 0xC0) 0x80 out
      else if b < 0xF0 then utf8Aux rest 2 (b - 0xE0) 0x800 out
      else if b < 0xF5 then utf8Aux rest 3 (b - 0xF0) 0x10000 out
      else none
  | b :: rest, 1, acc, lo, out =>
      if 0x80 ≤ b ∧ b < 0xC0 then
        let acc2 := acc * 64 + (b - 0x80)
        if lo ≤ acc2 ∧ ¬(0xD800 ≤ acc2 ∧ acc2 ≤ 0xDFFF) ∧ acc2 ≤ 0x10FFFF then
          utf8Aux rest 0 0 0 (acc2 :: out)
        else none
      else none
  | b :: rest, n + 2, acc, lo, out =>
      if 0x80 ≤ b ∧ b < 0xC0 then
        utf8Aux rest (n + 1) (acc * 64 + (b - 0x80)) lo out
      else none

/-- Python `bytes.decode("utf-8")`: `none` models a `UnicodeDecodeError`. -/
def utf8DecodeString (bytes : List ℕ) : Option String :=
  (utf8Aux bytes 0 0 0 []).map (fun cps => ⟨cps.map Char.ofNat⟩)

/-- The maybe-decode heuristic applied to the normalized code value in
the barcode variant. -/
def maybeB64Decode (s : String) : String :=
  if s.length % 4 = 0 ∧ s.data.all isB64Char then
    match utf8DecodeString (b64DecodeGroups s.data) with
    | some t => t
    | none => s
  else s

/-- The value passed to the QR generator (`qr.add_data(qr_data)`). -/
def qrPassedValue (barcode : Option String) (rid : String) : String :=
  codeValue barcode rid

/-- The value passed to the Code-128 generator
(`Code128(decoded_barcode, ...)`). -/
def bcPassedValue (barcode : Option String) (rid : String) : String :=
  maybeB64Decode (codeValue barcode rid)

/-! ## Preview rasterization (`new_qrcode.py` lines 164-179)

`if pdf_bytes: try: ... preview_bytes = pix.tobytes("png") except
Exception as e: st.warning(...)` — on failure `preview_bytes` stays
`None` and the function still returns `(pdf_bytes, pdf_filename,
preview_bytes)`.  The rasterizer (`fitz`) is abstracted as a fallible
function `render`. -/

def previewStep (pdfBytes : List ℕ) (render : List ℕ → Except String (List ℕ)) :
    Option (List ℕ) :=
  if pdfBytes = [] then none
  else
    match render pdfBytes with
    | Except.ok png => some png
    | Except.error _ => none

/-- The tail of the pipeline once the document bytes and filename
exist: returns the triple `(pdf_bytes, pdf_filename, preview_bytes)`. -/
def finalizeOutput (pdfBytes : List ℕ) (fname : String)
    (render : List ℕ → Except String (List ℕ)) :
    List ℕ × String × Option (List ℕ) :=
  (pdfBytes, fname, previewStep pdfBytes render)

/-! ## Properties of the font-fitting scan -/

lemma fitSearch_ge (m : ℕ → ℚ) (tH : ℚ) (k : ℕ) : min_fs ≤ fitSearch m tH k := by
  induction k with
  | zero => simp [fitSearch]
  | succ k ih =>
      simp only [fitSearch]
      split
      · omega
      · exact ih

lemma fitSearch_le (m : ℕ → ℚ) (tH : ℚ) (k : ℕ) :
    fitSearch m tH (k + 1) ≤ min_fs + k := by
  induction k with
  | zero =>
      show (if m (min_fs + 0) ≤ tH then min_fs + 0 else fitSearch m tH 0) ≤ min_fs + 0
      split
      · exact Nat.le_refl _
      · simp [fitSearch]
  | succ k ih =>
      show (if m (min_fs + (k + 1)) ≤ tH then min_fs + (k + 1) else fitSearch m tH (k + 1)) ≤
        min_fs + (k + 1)
      split
      · exact Nat.le_refl _
      · exact le_trans ih (by omega)

lemma fitSearch_max (m : ℕ → ℚ) (tH : ℚ) (k : ℕ) :
    ∀ j, j < k → m (min_fs + j) ≤ tH → min_fs + j ≤ fitSearch m tH k := by
  induction k with
  | zero => intro j hj _; omega
  | succ k ih =>
      intro j hj hm
      simp only [fitSearch]
      split
      · omega
      · rename_i hno
        have hjk : j ≠ k := by
          rintro rfl; exact hno hm
        exact ih j (by omega) hm

lemma fitSearch_spec (m : ℕ → ℚ) (tH : ℚ) (k : ℕ) :
    m (fitSearch m tH k) ≤ tH ∨
      (fitSearch m tH k = min_fs ∧ ∀ j, j < k → ¬ m (min_fs + j) ≤ tH) := by
  induction k with
  | zero => right; exact ⟨rfl, fun j hj => absurd hj (by omega)⟩
  | succ k ih =>
      simp only [fitSearch]
      split
      · rename_i hyes
        left; exact hyes
      · rename_i hno
        rcases ih with h | ⟨he, hall⟩
        · left; exact h
        · right
          refine ⟨he, fun j hj => ?_⟩
          rcases Nat.lt_succ_iff_lt_or_eq.mp hj with h' | rfl
          · exact hall j h'
          · exact hno

/-- C1: the QR-variant font-fitting search always lands in [6, 18], is
the largest size in that range whose measured wrapped height fits the
text region, and degrades to the minimum size 6 (rather than failing)
when no size fits.  The wrapped-height measurement at each candidate
size is abstracted as `measure`. -/
theorem qr_font_fit_correct (measure : ℕ → ℚ) (tH : ℚ) :
    (6 ≤ fittedFontSize measure tH ∧ fittedFontSize measure tH ≤ 18) ∧
    (∀ fs, 6 ≤ fs → fs ≤ 18 → measure fs ≤ tH → fs ≤ fittedFontSize measure tH) ∧
    (measure (fittedFontSize measure tH) ≤ tH ∨
      (fittedFontSize measure tH = 6 ∧ ∀ fs, 6 ≤ fs → fs ≤ 18 → tH < measure fs)) := by
  have hmin : min_fs = 6 := rfl
  have h13 : fittedFontSize measure tH = fitSearch measure tH 13 := rfl
  refine ⟨⟨?_, ?_⟩, ?_, ?_⟩
  · rw [h13, ← hmin]; exact fitSearch_ge measure tH 13
  · rw [h13]
    have hb : fitSearch measure tH 13 ≤ min_fs + 12 := fitSearch_le measure tH 12
    omega
  · intro fs h6 h18 hm
    rw [h13]
    have h1 : min_fs + (fs - 6) = fs := by rw [hmin]; omega
    have h2 := fitSearch_max measure tH 13 (fs - 6) (by omega) (by rw [h1]; exact hm)
    rw [h1] at h2
    exact h2
  · rcases fitSearch_spec measure tH 13 with h | ⟨he, hall⟩
    · left; rw [h13]; exact h
    · right
      refine ⟨by rw [h13, he, hmin], fun fs h6 h18 => ?_⟩
      have := hall (fs - 6) (by omega)
      rw [hmin] at this
      have heq : 6 + (fs - 6) = fs := by omega
      rw [heq] at this
      exact lt_of_not_le this

/-- C1 witness: with a measurement that always fits, the search selects
the maximum size 18, which is also maximal among the fitting sizes. -/
theorem qr_font_fit_correct_witness :
    18 ≤ fittedFontSize (fun _ => (0 : ℚ)) 0 ∧
    fittedFontSize (fun _ => (0 : ℚ)) 0 ≤ 18 :=
  ⟨(qr_font_fit_correct (fun _ => (0 : ℚ)) 0).2.1 18 (by norm_num) (by norm_num)
      (by norm_num),
   (qr_font_fit_correct (fun _ => (0 : ℚ)) 0).1.2⟩

/-- C2: the top and bottom padding around the fitted paragraph are
equal, non-negative, each half of the non-negative vertical slack, and
together they account for exactly the slack (the full difference when
it is non-negative, zero otherwise). -/
theorem qr_vertical_centering (tH pH : ℚ) :
    topPadding tH pH = bottomPadding tH pH ∧
    0 ≤ topPadding tH pH ∧
    topPadding tH pH = max (tH - pH) 0 / 2 ∧
    (0 ≤ tH - pH → topPadding tH pH + bottomPadding tH pH = tH - pH) ∧
    (tH - pH < 0 → topPadding tH pH = 0 ∧ bottomPadding tH pH = 0) := by
  unfold topPadding bottomPadding framePad verticalSpace
  refine ⟨rfl, ?_, rfl, ?_, ?_⟩
  · have h0 : (0 : ℚ) ≤ max (tH - pH) 0 := le_max_right _ _
    linarith
  · intro h
    rw [max_eq_left h]
    ring
  · intro h
    rw [max_eq_right (le_of_lt h)]
    norm_num

/-- C2 witness: at region height 10 and measured height 4 the two pads
sum to 6; at region height 1 and measured height 2 both pads vanish. -/
theorem qr_vertical_centering_witness :
    topPadding 10 4 + bottomPadding 10 4 = 6 ∧ topPadding 1 2 = 0 := by
  constructor
  · have h := (qr_vertical_centering 10 4).2.2.2.1 (by norm_num)
    linarith
  · exact ((qr_vertical_centering 1 2).2.2.2.2 (by norm_num)).1

/-- C3 counterexample: the barcode variant picks among THREE font sizes
(14 at length at most 25, 12 up to length 40, 10 beyond), so no single
threshold with exactly two sizes reproduces it. -/
theorem barcode_font_not_two_tier : ¬ twoTierScheme := by
  rintro ⟨L, big, small, hlt, h⟩
  have h1 := h 25
  have h2 := h 40
  have h3 := h 50
  norm_num [barcodeFontSize, max_len_large_font, max_len_medium_font] at h1 h2 h3
  split_ifs at h1 h2 h3 <;> omega

/-- C3 amended: the barcode variant selects among exactly three font
sizes via two length thresholds — 14 for names of length at most 25, 12
for lengths 26 through 40, and 10 above 40 — and the choice is
monotonically non-increasing in the name length. -/
theorem barcode_font_three_tier (n : ℕ) :
    (n ≤ 25 → barcodeFontSize n = 14) ∧
    (25 < n → n ≤ 40 → barcodeFontSize n = 12) ∧
    (40 < n → barcodeFontSize n = 10) ∧
    (∀ m, n ≤ m → barcodeFontSize m ≤ barcodeFontSize n) := by
  unfold barcodeFontSize max_len_large_font max_len_medium_font
  refine ⟨?_, ?_, ?_, ?_⟩
  · intro h; split_ifs; all_goals omega
  · intro h1 h2; split_ifs; all_goals omega
  · intro h; split_ifs; all_goals omega
  · intro m hm; split_ifs; all_goals omega

/-- C3 amended witness: a name of length 31 falls in the middle tier. -/
theorem barcode_font_three_tier_witness : barcodeFontSize 31 = 12 :=
  (barcode_font_three_tier 31).2.1 (by norm_num) (by norm_num)

/-- C4 counterexample: in the barcode variant a present but blank
upstream name yields the empty display name, not the placeholder. -/
theorem name_blank_counterexample :
    normalizeNameBC (some " ") = "" ∧ ("" : String) ≠ "N/A" := by
  refine ⟨by decide, by decide⟩

/-- C4 amended: the QR variant maps an absent or blank upstream name to
the placeholder and a non-blank one to its stripped form; the barcode
variant maps only an absent name to the placeholder — a present name is
merely stripped, so a blank one becomes the empty string. -/
theorem display_name_normalization :
    normalizeNameQR none = "N/A" ∧
    (∀ s, pyStrip s = "" → normalizeNameQR (some s) = "N/A") ∧
    (∀ s, pyStrip s ≠ "" → normalizeNameQR (some s) = pyStrip s) ∧
    normalizeNameBC none = "N/A" ∧
    (∀ s, normalizeNameBC (some s) = pyStrip s) := by
  refine ⟨by decide, ?_, ?_, by decide, fun s => rfl⟩
  · intro s h
    unfold normalizeNameQR
    simp [h]
  · intro s h
    unfold normalizeNameQR
    simp [h]

/-- C4 amended witness: a whitespace-only name normalizes to the
placeholder in the QR variant. -/
theorem display_name_normalization_witness :
    normalizeNameQR (some " ") = "N/A" :=
  display_name_normalization.2.1 " " (by decide)

/-- C6: once the document bytes and filename exist, a rasterizer
failure is absorbed — the pipeline still returns the document and the
filename, with a null preview. -/
theorem preview_failure_graceful (pdfBytes : List ℕ) (fname : String)
    (render : List ℕ → Except String (List ℕ)) (e : String)
    (h : render pdfBytes = Except.error e) :
    finalizeOutput pdfBytes fname render = (pdfBytes, fname, none) := by
  unfold finalizeOutput previewStep
  split_ifs with h0
  · rfl
  · rw [h]

/-- C6 witness: a concrete always-failing rasterizer still lets the
pipeline return the document and filename. -/
theorem preview_failure_graceful_witness :
    finalizeOutput [1] "label.pdf" (fun _ => Except.error "boom") =
      ([1], "label.pdf", none) :=
  preview_failure_graceful [1] "label.pdf" (fun _ => Except.error "boom") "boom" rfl

/-- C7: an empty input, an input without a slash, or an input whose
last segment (after stripping trailing slashes) is not a non-empty
all-digit string makes the extractor fail, and the fetch stage then
performs no request for any fetch function. -/
theorem extractor_rejects_invalid (url : String)
    (h : url = "" ∨ url.data.contains '/' = false ∨
      pyIsdigit (lastSegment url) = false) :
    (∃ e, extractResourceId url = Except.error e) ∧
    ∀ fetch : String → ℕ, runFetchStage url fetch = none := by
  have herr : ∃ e, extractResourceId url = Except.error e := by
    unfold extractResourceId
    rcases h with h | h | h
    · exact ⟨_, by rw [if_pos (Or.inl h)]⟩
    · exact ⟨_, by rw [if_pos (Or.inr h)]⟩
    · by_cases h0 : url = "" ∨ url.data.contains '/' = false
      · exact ⟨_, by rw [if_pos h0]⟩
      · refine ⟨"Could not extract numeric ID.", ?_⟩
        rw [if_neg h0]
        show (if pyIsdigit (lastSegment url) then Except.ok (lastSegment url)
            else (Except.error "Could not extract numeric ID." : Except String String)) =
          Except.error "Could not extract numeric ID."
        rw [if_neg (by simp [h])]
  obtain ⟨e, he⟩ := herr
  refine ⟨⟨e, he⟩, fun fetch => ?_⟩
  unfold runFetchStage
  rw [he]

/-- C7 witness: a slash-free input is rejected and triggers no fetch. -/
theorem extractor_rejects_invalid_witness :
    (∃ e, extractResourceId "abc" = Except.error e) ∧
    ∀ fetch : String → ℕ, runFetchStage "abc" fetch = none :=
  extractor_rejects_invalid "abc" (Or.inr (Or.inl (by decide)))

/-! ## Properties of the sanitizer -/

lemma mem_of_mem_rstripWs {c : Char} {l : List Char} (h : c ∈ rstripWs l) : c ∈ l := by
  unfold rstripWs at h
  rw [List.mem_reverse] at h
  exact List.mem_reverse.mp ((List.dropWhile_sublist Char.isWhitespace).mem h)

lemma sanitizeL_chars {l : List Char} {c : Char} (h : c ∈ sanitizeL l) :
    keepChar c = true ∧ c ≠ ' ' := by
  unfold sanitizeL replaceSpace at h
  rcases List.mem_map.mp h with ⟨a, ha, rfl⟩
  have hk : keepChar a = true := (List.mem_filter.mp (mem_of_mem_rstripWs ha)).2
  by_cases hsp : a = ' '
  · subst hsp
    exact ⟨by decide, by decide⟩
  · rw [if_neg hsp]
    exact ⟨hk, hsp⟩

lemma keep_not_ws {c : Char} (hk : keepChar c = true) (hs : c ≠ ' ') :
    c.isWhitespace = false := by
  by_cases hw : c.isWhitespace
  · exfalso
    have hw' : ((c = ' ' ∨ c = '\t') ∨ c = '\r') ∨ c = '\n' := by
      simpa [Char.isWhitespace, Bool.or_eq_true, decide_eq_true_eq] using hw
    rcases hw' with ((rfl | rfl) | rfl) | rfl
    · exact hs rfl
    · revert hk; decide
    · revert hk; decide
    · revert hk; decide
  · simpa using hw

lemma rstripWs_eq_self {l : List Char} (h : ∀ c ∈ l, c.isWhitespace = false) :
    rstripWs l = l := by
  unfold rstripWs
  have hdw : l.reverse.dropWhile Char.isWhitespace = l.reverse := by
    cases hrev : l.reverse with
    | nil => rfl
    | cons a t =>
        rw [List.dropWhile_cons]
        have ha : a ∈ l := by
          rw [← List.mem_reverse, hrev]
          exact List.mem_cons_self a t
        rw [h a ha]
        simp
  rw [hdw, List.reverse_reverse]

lemma replaceSpace_eq_self : ∀ {l : List Char}, (∀ c ∈ l, c ≠ ' ') → replaceSpace l = l := by
  intro l
  induction l with
  | nil => intro _; rfl
  | cons a t ih =>
      intro h
      simp only [replaceSpace, List.map_cons]
      rw [if_neg (h a (List.mem_cons_self a t))]
      have ht := ih (fun c hc => h c (List.mem_cons_of_mem a hc))
      simp only [replaceSpace] at ht
      rw [ht]

lemma sanitizeL_idem (l : List Char) : sanitizeL (sanitizeL l) = sanitizeL l := by
  show replaceSpace (rstripWs ((sanitizeL l).filter keepChar)) = sanitizeL l
  rw [List.filter_eq_self.mpr (fun c hc => (sanitizeL_chars hc).1)]
  rw [rstripWs_eq_self (fun c hc => keep_not_ws (sanitizeL_chars hc).1 (sanitizeL_chars hc).2)]
  exact replaceSpace_eq_self (fun c hc => (sanitizeL_chars hc).2)

/-- C9: filename sanitization (keep alphanumerics, spaces, underscores
and hyphens; strip trailing whitespace; replace spaces by underscores)
is idempotent. -/
theorem sanitize_idempotent (s : String) : sanitize (sanitize s) = sanitize s := by
  unfold sanitize
  congr 1
  exact sanitizeL_idem s.data

/-- C8: the filename builder is total and never produces the empty
string; when the sanitized display name is empty, the filename is
composed of the kind tag, the identifier and the font size alone (the
name contributes nothing). -/
theorem filename_builder_total (kindTag rid name : String) (fs : ℕ) :
    buildFilename kindTag rid name fs ≠ "" ∧
    (sanitize name = "" →
      buildFilename kindTag rid name fs =
        kindTag ++ "_" ++ rid ++ "_" ++ "_fs" ++ toString fs ++ ".pdf") := by
  constructor
  · intro hc
    have hlen := congrArg String.length hc
    rw [buildFilename] at hlen
    simp only [String.length_append] at hlen
    have h4 : (".pdf" : String).length = 4 := rfl
    have h0 : ("" : String).length = 0 := rfl
    rw [h4, h0] at hlen
    omega
  · intro h
    rw [buildFilename, h, String.append_empty]

/-- C8 witness: a display name that sanitizes to nothing leaves a
filename built from the tag, identifier and font size only. -/
theorem filename_builder_total_witness :
    buildFilename "QR" "42" "!!!" 12 =
      "QR" ++ "_" ++ "42" ++ "_" ++ "_fs" ++ toString 12 ++ ".pdf" :=
  (filename_builder_total "QR" "42" "!!!" 12).2 (by decide)

/-! ## Properties of the decoders -/

lemma utf8Aux_length_le (l : List ℕ) : ∀ (n acc lo : ℕ) (out r : List ℕ),
    utf8Aux l n acc lo out = some r → out.length ≤ r.length := by
  induction l with
  | nil =>
      intro n acc lo out r h
      rcases n with _ | n
      · simp only [utf8Aux, Option.some.injEq] at h
        rw [← h]
        simp
      · simp [utf8Aux] at h
  | cons b rest ih =>
      intro n acc lo out r h
      rcases n with _ | (_ | n)
      · simp only [utf8Aux] at h
        split_ifs at h with h1 h2 h3 h4 h5
        · have hg := ih 0 0 0 (b :: out) r h
          simp only [List.length_cons] at hg
          omega
        · exact ih 1 (b - 0xC0) 0x80 out r h
        · exact ih 2 (b - 0xE0) 0x800 out r h
        · exact ih 3 (b - 0xF0) 0x10000 out r h
      · simp only [utf8Aux] at h
        split_ifs at h with h1 h2
        · have hg := ih 0 0 0 ((acc * 64 + (b - 0x80)) :: out) r h
          simp only [List.length_cons] at hg
          omega
      · simp only [utf8Aux] at h
        split_ifs at h with h1
        exact ih (n + 1) (acc * 64 + (b - 0x80)) lo out r h

lemma utf8Aux_out_lt (l : List ℕ) : ∀ (n acc lo : ℕ) (out r : List ℕ),
    utf8Aux l (n + 1) acc lo out = some r → out.length < r.length := by
  induction l with
  | nil =>
      intro n acc lo out r h
      simp [utf8Aux] at h
  | cons b rest ih =>
      intro n acc lo out r h
      rcases n with _ | n
      · simp only [utf8Aux] at h
        split_ifs at h with h1 h2
        · have hg := utf8Aux_length_le rest 0 0 0 ((acc * 64 + (b - 0x80)) :: out) r h
          simp only [List.length_cons] at hg
          omega
      · simp only [utf8Aux] at h
        split_ifs at h with h1
        exact ih n (acc * 64 + (b - 0x80)) lo out r h

lemma utf8Aux_start_ne_nil (b : ℕ) (rest : List ℕ) (r : List ℕ)
    (h : utf8Aux (b :: rest) 0 0 0 [] = some r) : r ≠ [] := by
  simp only [utf8Aux] at h
  split_ifs at h with h1 h2 h3 h4 h5
  · have hg := utf8Aux_length_le rest 0 0 0 [b] r h
    intro hr; subst hr; simp at hg
  · have hg := utf8Aux_out_lt rest 0 (b - 0xC0) 0x80 [] r h
    intro hr; subst hr; simp at hg
  · have hg := utf8Aux_out_lt rest 1 (b - 0xE0) 0x800 [] r h
    intro hr; subst hr; simp at hg
  · have hg := utf8Aux_out_lt rest 2 (b - 0xF0) 0x10000 [] r h
    intro hr; subst hr; simp at hg

lemma b64DecodeGroups_ne_nil {l : List Char} (h4 : 4 ≤ l.length) :
    b64DecodeGroups l ≠ [] := by
  rcases l with _ | ⟨c0, l⟩
  · simp at h4
  rcases l with _ | ⟨c1, l⟩
  · simp at h4
  rcases l with _ | ⟨c2, l⟩
  · simp at h4
  rcases l with _ | ⟨c3, l⟩
  · simp at h4
  · simp [b64DecodeGroups]

lemma maybeB64Decode_ne_empty {s : String} (h : s ≠ "") : maybeB64Decode s ≠ "" := by
  unfold maybeB64Decode
  split_ifs with hc
  · obtain ⟨hlen, hall⟩ := hc
    cases hu : utf8DecodeString (b64DecodeGroups s.data) with
    | none => simp only [hu]; exact h
    | some t =>
        simp only [hu]
        unfold utf8DecodeString at hu
        rcases Option.map_eq_some'.mp hu with ⟨cps, hcps, rfl⟩
        have hd : s.data ≠ [] := by
          intro hnil
          exact h (String.ext (by rw [hnil]))
        have hlen4 : 4 ≤ s.data.length := by
          have h1 : s.data.length ≠ 0 := fun hh => hd (List.length_eq_zero.mp hh)
          have h2 : s.data.length % 4 = 0 := hlen
          omega
        obtain ⟨b, bs, hb⟩ := List.exists_cons_of_ne_nil (b64DecodeGroups_ne_nil hlen4)
        rw [hb] at hcps
        have hne := utf8Aux_start_ne_nil b bs cps hcps
        intro hcontra
        have hdata := congrArg String.data hcontra
        simp only at hdata
        exact hne (List.map_eq_nil_iff.mp hdata)
  · exact h

/-- C5 counterexample: in the barcode variant an upstream barcode that
is present and non-empty is not always what reaches the code-image
generator — the Base64 heuristic rewrites it. -/
theorem code_value_counterexample :
    ("YWJj" : String) ≠ "" ∧
    bcPassedValue (some "YWJj") "1" = "abc" ∧
    bcPassedValue (some "YWJj") "1" ≠ "YWJj" :=
  ⟨by decide, by decide, by decide⟩

/-- C5 amended: the normalized code value is the upstream barcode when
present and non-empty and the numeric identifier otherwise, and is
never empty; the QR variant passes it to the generator verbatim, while
the barcode variant passes its maybe-Base64-decoding, which is also
never empty. -/
theorem code_value_fallback (barcode : Option String) (rid : String) (hr : rid ≠ "") :
    codeValue barcode rid ≠ "" ∧
    (∀ b : String, b ≠ "" → codeValue (some b) rid = b) ∧
    codeValue none rid = rid ∧
    codeValue (some "") rid = rid ∧
    qrPassedValue barcode rid = codeValue barcode rid ∧
    bcPassedValue barcode rid = maybeB64Decode (codeValue barcode rid) ∧
    bcPassedValue barcode rid ≠ "" := by
  have hcv : codeValue barcode rid ≠ "" := by
    rcases barcode with _ | b
    · show (if ("" : String) = "" then rid else "") ≠ ""
      rw [if_pos rfl]
      exact hr
    · show (if b = "" then rid else b) ≠ ""
      split_ifs with hb
      · exact hr
      · exact hb
  refine ⟨hcv, ?_, ?_, ?_, rfl, rfl, maybeB64Decode_ne_empty hcv⟩
  · intro b hb
    show (if b = "" then rid else b) = b
    rw [if_neg hb]
  · show (if ("" : String) = "" then rid else "") = rid
    rw [if_pos rfl]
  · show (if ("" : String) = "" then rid else "") = rid
    rw [if_pos rfl]

/-- C5 amended witness: with no upstream barcode and identifier 777 the
code value falls back to 777 and the barcode-variant payload stays
non-empty. -/
theorem code_value_fallback_witness :
    codeValue none "777" = "777" ∧ bcPassedValue none "777" ≠ "" :=
  ⟨(code_value_fallback none "777" (by decide)).2.2.1,
   (code_value_fallback none "777" (by decide)).2.2.2.2.2.2⟩

/-- C10: the barcode variant Base64-decodes the code value exactly when
its length is a multiple of 4 and every character lies in the Base64
alphabet, keeping it verbatim otherwise or when decoding fails; a
purely numeric identifier such as 0400, whose length is divisible by 4,
is consequently rewritten rather than encoded verbatim. -/
theorem b64_heuristic (s : String) :
    (¬(s.length % 4 = 0 ∧ s.data.all isB64Char = true) → maybeB64Decode s = s) ∧
    (∀ t, s.length % 4 = 0 → s.data.all isB64Char = true →
      utf8DecodeString (b64DecodeGroups s.data) = some t → maybeB64Decode s = t) ∧
    (s.length % 4 = 0 → s.data.all isB64Char = true →
      utf8DecodeString (b64DecodeGroups s.data) = none → maybeB64Decode s = s) ∧
    (pyIsdigit "0400" = true ∧ ("0400" : String).length % 4 = 0 ∧
      maybeB64Decode "0400" ≠ "0400") := by
  refine ⟨?_, ?_, ?_, by decide, by decide, by decide⟩
  · intro h
    unfold maybeB64Decode
    rw [if_neg h]
  · intro t h1 h2 hu
    unfold maybeB64Decode
    rw [if_pos ⟨h1, h2⟩, hu]
  · intro h1 h2 hu
    unfold maybeB64Decode
    rw [if_pos ⟨h1, h2⟩, hu]

/-- C10 witness: a value of length 3 fails the length test and passes
through untouched. -/
theorem b64_heuristic_witness : maybeB64Decode "abc" = "abc" :=
  (b64_heuristic "abc").1 (by decide)

end MXLabel
